import Mathlib

/-
Verification development for the EvAdventure turn-based combat engine
(evennia/contrib/tutorials/evadventure/combat.py).

The combat handler state and its operations are embedded shallowly:
combatants, items and abilities are identified by natural numbers; Python
dicts become insertion-ordered association lists; external collaborators
(weapons, items, the dice oracle, the random shuffle, the defeat hook)
are a parameter structure of functions; fallible Python code (dict key
lookups, dictionary-mutation-during-iteration) returns Except.
-/

set_option autoImplicit false

namespace Combat

/-- Python exceptions the combat handler code can raise: KeyError from a
dict lookup of an unregistered combatant, and RuntimeError from mutating a
dict while iterating over it. -/
inductive PyErr where
  | keyError
  | runtimeError
  deriving DecidableEq, Repr

instance {ε α : Type} [DecidableEq ε] [DecidableEq α] : DecidableEq (Except ε α) := fun x y =>
  match x, y with
  | .error a, .error b =>
    if h : a = b then .isTrue (by rw [h]) else .isFalse (by intro he; cases he; exact h rfl)
  | .ok a, .ok b =>
    if h : a = b then .isTrue (by rw [h]) else .isFalse (by intro he; cases he; exact h rfl)
  | .error _, .ok _ => .isFalse (by intro he; cases he)
  | .ok _, .error _ => .isFalse (by intro he; cases he)

/-- The action-dicts stored in each combatant queue, one constructor per
entry of EvAdventureCombatHandler.action_classes, carrying the fields the
source documents for each action class. -/
inductive ActionDict where
  | hold
  | attack (target : Nat)
  | stunt (recipient target : Nat) (advantage : Bool) (stunt_type defense_type : Nat)
  | use (item target : Nat)
  | wield (item : Nat)
  | flee
  deriving DecidableEq, Repr

section Dict

variable {α β : Type} [DecidableEq α]

/-- Keys of a Python dict modelled as an insertion-ordered association list. -/
def dkeys (l : List (α × β)) : List α := l.map Prod.fst

/-- Python dict lookup, as an Option. -/
def dget? : List (α × β) → α → Option β
  | [], _ => none
  | p :: ps, k => if p.1 = k then some p.2 else dget? ps k

/-- Python dict assignment: update in place if the key exists, else append. -/
def dset : List (α × β) → α → β → List (α × β)
  | [], k, v => [(k, v)]
  | p :: ps, k, v => if p.1 = k then (k, v) :: ps else p :: dset ps k v

/-- The effect of Python dict pop with a default: drop the entry of the key,
if present. -/
def dpop : List (α × β) → α → List (α × β)
  | [], _ => []
  | p :: ps, k => if p.1 = k then ps else p :: dpop ps k

end Dict

/-- Class attribute max_action_queue_size of EvAdventureCombatHandler. -/
def max_action_queue_size : Nat := 1

/-- Class attribute fallback_action_dict of EvAdventureCombatHandler. -/
def fallback_action_dict : ActionDict := .hold

/-- The persistent state of EvAdventureCombatHandler, together with the
externally owned combatant data the handler reads (hp, pc-status, the
equipped weapon, the allow_pvp room flag), and counters recording calls
into the external scheduler API (force_repeat, stop/delete) plus the
victory report data the handler sends out on combat end. -/
structure World where
  turn : Nat
  combatants : List (Nat × List ActionDict)
  advantage_matrix : List ((Nat × Nat) × Bool)
  disadvantage_matrix : List ((Nat × Nat) × Bool)
  fleeing_combatants : List (Nat × Nat)
  defeated_combatants : List Nat
  ndb_did_action : Option (List Nat)
  flee_timeout : Nat
  hp : List (Nat × Int)
  equipped : List (Nat × Nat)
  pcs : List Nat
  allow_pvp : Bool
  force_repeat_calls : Nat
  stop_calls : Nat
  victory_reports : List (List Nat × List Nat × List Nat)
  deriving DecidableEq, Repr

/-- External collaborators: the per-turn random shuffle, the weapon and
item contracts, the dice oracle, the defeat hook, and the random survivor
pick of the victory check. -/
structure Env where
  shuffle : Nat → List Nat → List Nat
  weapon_at_pre_use : Option Nat → Nat → Nat → Bool
  weapon_use : Option Nat → Nat → Nat → Bool → List (Nat × Int) → List (Nat × Int)
  item_at_pre_use : Nat → Nat → Nat → Bool
  item_use : Nat → Nat → Nat → Bool → Bool → List (Nat × Int) → List (Nat × Int)
  opposed_saving_throw : Nat → Nat → Nat → Nat → Bool → Bool → Bool
  at_defeat : Nat → List (Nat × Int) → List (Nat × Int)
  pick_survivor : List Nat → Nat

/-- The currently registered combatants, in insertion order. -/
def members (w : World) : List Nat := dkeys w.combatants

/-- Externally owned hp of a combatant. -/
def hp_of (w : World) (c : Nat) : Int := (dget? w.hp c).getD 0

/-- Python membership test of a combatant in the fleeing_combatants dict. -/
def is_fleeing (w : World) (c : Nat) : Bool := (dget? w.fleeing_combatants c).isSome

/-- CombatAction.give_advantage. -/
def give_advantage (w : World) (recipient target : Nat) : World :=
  { w with advantage_matrix := dset w.advantage_matrix (recipient, target) true }

/-- CombatAction.give_disadvantage. -/
def give_disadvantage (w : World) (recipient target : Nat) : World :=
  { w with disadvantage_matrix := dset w.disadvantage_matrix (recipient, target) true }

/-- CombatAction.has_advantage: pops the matrix entry unconditionally and
returns the popped value or-ed with whether the target is fleeing. -/
def has_advantage (w : World) (recipient target : Nat) : Bool × World :=
  (((dget? w.advantage_matrix (recipient, target)).getD false) || is_fleeing w target,
   { w with advantage_matrix := dpop w.advantage_matrix (recipient, target) })

/-- CombatAction.has_disadvantage: pops the matrix entry unconditionally and
returns the popped value or-ed with whether the recipient is fleeing. -/
def has_disadvantage (w : World) (recipient target : Nat) : Bool × World :=
  (((dget? w.disadvantage_matrix (recipient, target)).getD false) || is_fleeing w recipient,
   { w with disadvantage_matrix := dpop w.disadvantage_matrix (recipient, target) })

/-- EvAdventureCombatHandler.add_combatant: create an empty queue on first
registration, reporting whether the combatant is new. -/
def add_combatant (w : World) (c : Nat) : World × Bool :=
  if (dget? w.combatants c).isSome then (w, false)
  else ({ w with combatants := dset w.combatants c [] }, true)

/-- EvAdventureCombatHandler.remove_combatant: pop the queue of the
combatant (the cmdset cleanup is external and stateless here). -/
def remove_combatant (w : World) (c : Nat) : World :=
  { w with combatants := dpop w.combatants c }

/-- The local set built by queue_action from self.ndb.did_action. -/
def pyset_insert (c : Nat) (s : List Nat) : List Nat :=
  if c ∈ s then s else s ++ [c]

/-- Python deque append with a maxlen: the oldest entries are evicted from
the front to keep at most maxlen entries. -/
def deque_append (maxlen : Nat) (q : List ActionDict) (a : ActionDict) : List ActionDict :=
  let q2 := q ++ [a]
  q2.drop (q2.length - maxlen)

/-- Python deque rotate by -1: the front entry moves to the back. -/
def rotate_left (q : List ActionDict) : List ActionDict :=
  match q with
  | [] => []
  | a :: rest => rest ++ [a]

/-- EvAdventureCombatHandler.queue_action: append to the queue of the
combatant (KeyError when unregistered), build a local set from
self.ndb.did_action (which the source never writes back), and call
force_repeat when that local set covers all registered combatants. -/
def queue_action (w : World) (c : Nat) (a : ActionDict) : Except PyErr World :=
  match dget? w.combatants c with
  | none => .error .keyError
  | some q =>
    let w1 := { w with combatants := dset w.combatants c (deque_append max_action_queue_size q a) }
    let did_action := pyset_insert c (w1.ndb_did_action.getD [])
    if w1.combatants.length ≤ did_action.length then
      .ok { w1 with force_repeat_calls := w1.force_repeat_calls + 1 }
    else .ok w1

/-- EvAdventureCombatHandler.get_next_action_dict: front of the queue or
the fallback hold, rotating the queue when asked; KeyError when the
combatant is unregistered. -/
def get_next_action_dict (w : World) (c : Nat) (rotate_queue : Bool) :
    Except PyErr (ActionDict × World) :=
  match dget? w.combatants c with
  | none => .error .keyError
  | some q =>
    let a := q.headD fallback_action_dict
    if rotate_queue then
      .ok (a, { w with combatants := dset w.combatants c (rotate_left q) })
    else .ok (a, w)

/-- EvAdventureCombatHandler.get_sides: with allow_pvp everyone else is an
enemy; otherwise the two factions are pcs and non-pcs. -/
def get_sides (w : World) (combatant : Nat) : List Nat × List Nat :=
  if w.allow_pvp then
    ([combatant], (members w).filter (fun comb => decide (comb ≠ combatant)))
  else
    let pcs := (members w).filter (fun comb => decide (comb ∈ w.pcs))
    let npcs := (members w).filter (fun comb => decide (comb ∉ pcs))
    if combatant ∈ pcs then
      (pcs.filter (fun comb => decide (comb ≠ combatant)), npcs)
    else
      (npcs.filter (fun comb => decide (comb ≠ combatant)), pcs)

/-- The defender computed by CombatActionStunt.execute. -/
def stunt_defender (recipient target : Nat) (advantage : Bool) : Nat :=
  if recipient = target then recipient
  else if advantage then target else recipient

/-- Modelled from the spec wording for the stunt defender: the target when
recipient equals target; otherwise the target when granting advantage,
otherwise the recipient. -/
def stunt_defender_spec (recipient target : Nat) (advantage : Bool) : Nat :=
  if recipient = target then target
  else if advantage then target else recipient

/-- The execute method of each CombatAction subclass. -/
def action_execute (env : Env) (w : World) (c : Nat) : ActionDict → Except PyErr World
  | .hold => .ok w
  | .attack target =>
    let weapon := dget? w.equipped c
    if env.weapon_at_pre_use weapon c target then
      let advw := has_advantage w c target
      .ok { advw.2 with hp := env.weapon_use weapon c target advw.1 advw.2.hp }
    else .ok w
  | .stunt recipient target advantage stunt_type defense_type =>
    let defender := stunt_defender recipient target advantage
    let advw := has_advantage w c defender
    let disw := has_disadvantage advw.2 c defender
    let is_success := env.opposed_saving_throw c defender stunt_type defense_type advw.1 disw.1
    if is_success then
      let w3 := if advantage then give_advantage disw.2 recipient target
                else give_disadvantage disw.2 recipient target
      queue_action w3 c .hold
    else .ok disw.2
  | .use item target =>
    let w1 :=
      if env.item_at_pre_use item c target then
        let advw := has_advantage w c target
        let disw := has_disadvantage advw.2 c target
        { disw.2 with hp := env.item_use item c target advw.1 disw.1 disw.2.hp }
      else w
    queue_action w1 c .hold
  | .wield item =>
    let w1 := { w with equipped := dset w.equipped c item }
    queue_action w1 c .hold
  | .flee =>
    if (dget? w.fleeing_combatants c).isSome then .ok w
    else .ok { w with fleeing_combatants := dset w.fleeing_combatants c w.turn }

/-- post_execute: every action except flee cancels an ongoing flight of
the acting combatant. -/
def action_post_execute (w : World) (c : Nat) : ActionDict → World
  | .flee => w
  | _ => { w with fleeing_combatants := dpop w.fleeing_combatants c }

/-- EvAdventureCombatHandler.execute_next_action, additionally reporting
the action-dict that was executed. -/
def execute_next_action (env : Env) (w : World) (c : Nat) :
    Except PyErr (World × ActionDict) := do
  let aw ← get_next_action_dict w c true
  let w2 ← action_execute env aw.2 c aw.1
  .ok (action_post_execute w2 c aw.1, aw.1)

/-- The action loop of execute_full_turn over the shuffled order,
collecting the executed (combatant, action) pairs. -/
def run_actions (env : Env) : List Nat → World → Except PyErr (World × List (Nat × ActionDict))
  | [], w => .ok (w, [])
  | c :: rest, w => do
    let wa ← execute_next_action env w c
    let wtr ← run_actions env rest wa.1
    .ok (wtr.1, (c, wa.2) :: wtr.2)

/-- The defeat sweep of execute_full_turn, folding over the snapshot
list(self.combatants.keys()): anyone at hp at most 0 gets the at_defeat
hook, is popped from the combatant dict and appended to the defeated
list. -/
def defeat_sweep (env : Env) : List Nat → World → World
  | [], w => w
  | c :: rest, w =>
    let w1 :=
      if hp_of w c ≤ 0 then
        let wa := { w with hp := env.at_defeat c w.hp }
        { wa with
          combatants := dpop wa.combatants c,
          defeated_combatants := wa.defeated_combatants ++ [c] }
      else w
    defeat_sweep env rest w1

/-- The flight sweep of execute_full_turn, folding over the entries of
fleeing_combatants: anyone fleeing for flee_timeout turns or more is
removed from combat (their fleeing entry itself is not touched). -/
def flee_sweep : List (Nat × Nat) → World → World
  | [], w => w
  | e :: rest, w =>
    let w1 :=
      if (w.flee_timeout : Int) ≤ (w.turn : Int) - (e.2 : Int) then
        remove_combatant w e.1
      else w
    flee_sweep rest w1

/-- The loop of stop_combat: CPython dict iteration checks on every next()
call that the dict size still equals the size recorded when the iterator
was created, and raises RuntimeError otherwise; the loop body removes the
yielded combatant from that same dict. -/
def stop_combat_loop (orig_size : Nat) : List Nat → World → Except PyErr World
  | [], w =>
    if w.combatants.length ≠ orig_size then .error .runtimeError else .ok w
  | c :: rest, w =>
    if w.combatants.length ≠ orig_size then .error .runtimeError
    else stop_combat_loop orig_size rest (remove_combatant w c)

/-- EvAdventureCombatHandler.stop_combat: remove every combatant while
iterating over the live combatant dict, then stop and delete the script
(recorded in the stop_calls counter). -/
def stop_combat (w : World) : Except PyErr World := do
  let w1 ← stop_combat_loop w.combatants.length (members w) w
  .ok { w1 with stop_calls := w1.stop_calls + 1 }

/-- The victory check ending execute_full_turn: with no combatants left,
or once the randomly picked survivor has no enemies, report the still
standing, the knocked out (defeated with hp above 0) and the killed
(defeated with hp at most 0), then stop_combat. -/
def victory_check (env : Env) (w : World) : Except PyErr World :=
  let sides :=
    if members w = [] then ([], [])
    else get_sides w (env.pick_survivor (members w))
  if sides.2 = [] then
    let still_standing := sides.1
    let knocked_out := w.defeated_combatants.filter (fun comb => decide (0 < hp_of w comb))
    let killed := w.defeated_combatants.filter (fun comb => decide (hp_of w comb ≤ 0))
    let w1 := { w with
      victory_reports := w.victory_reports ++ [(still_standing, knocked_out, killed)] }
    stop_combat w1
  else .ok w

/-- The first half of execute_full_turn: increment the turn counter,
shuffle the registered combatants and run everyone through the action
loop. -/
def turn_after_actions (env : Env) (w : World) : Except PyErr (World × List (Nat × ActionDict)) :=
  let w1 := { w with turn := w.turn + 1 }
  let order := env.shuffle w1.turn (members w1)
  run_actions env order w1

/-- execute_full_turn up to and including the defeat and flight sweeps. -/
def turn_after_sweeps (env : Env) (w : World) : Except PyErr World := do
  let wtr ← turn_after_actions env w
  let w2 := defeat_sweep env (members wtr.1) wtr.1
  .ok (flee_sweep w2.fleeing_combatants w2)

/-- EvAdventureCombatHandler.execute_full_turn. -/
def execute_full_turn (env : Env) (w : World) : Except PyErr World := do
  let w1 ← turn_after_sweeps env w
  victory_check env w1

/-- Iterated full turns (the repeating scheduler tick). -/
def run_turns (env : Env) : Nat → World → Except PyErr World
  | 0, w => .ok w
  | n + 1, w => do
    let w1 ← execute_full_turn env w
    run_turns env n w1

/-- Whether the post-sweep state of a turn keeps combat going: some
combatant remains and the picked survivor still has enemies. -/
def enemies_remain (env : Env) (w : World) : Bool :=
  decide (¬ members w = []) &&
    decide (¬ (get_sides w (env.pick_survivor (members w))).2 = [])

/-- Side conditions on one turn from a given state, seen from a combatant
c: the action phase succeeds leaving c at positive hp, and after the
sweeps combat still has two sides. -/
def good_turn (env : Env) (c : Nat) (w : World) : Bool :=
  (match turn_after_actions env w with
   | .error _ => false
   | .ok wtr => decide (0 < hp_of wtr.1 c)) &&
  (match turn_after_sweeps env w with
   | .error _ => false
   | .ok ws => enemies_remain env ws)

/-- good_turn lifted along the Except results of run_turns. -/
def good_step (env : Env) (c : Nat) : Except PyErr World → Bool
  | .error _ => true
  | .ok w => good_turn env c w

/-- A base world with every field empty, for building concrete scenarios. -/
def base_world : World :=
  { turn := 0, combatants := [], advantage_matrix := [], disadvantage_matrix := [],
    fleeing_combatants := [], defeated_combatants := [], ndb_did_action := none,
    flee_timeout := 5, hp := [], equipped := [], pcs := [], allow_pvp := false,
    force_repeat_calls := 0, stop_calls := 0, victory_reports := [] }

/-- A deterministic environment: identity shuffle, always-passing pre-use
checks, effect-free weapons and items, always-succeeding stunt checks, an
effect-free defeat hook, and the first member as picked survivor. -/
def id_env : Env :=
  { shuffle := fun _ l => l,
    weapon_at_pre_use := fun _ _ _ => true,
    weapon_use := fun _ _ _ _ hp => hp,
    item_at_pre_use := fun _ _ _ => true,
    item_use := fun _ _ _ _ _ hp => hp,
    opposed_saving_throw := fun _ _ _ _ _ _ => true,
    at_defeat := fun _ hp => hp,
    pick_survivor := fun l => l.headD 0 }

/-- Two fresh combatants who each submit once: the scenario of claim C1. -/
def w_c1 : World :=
  { base_world with
    combatants := [(1, []), (2, [])], hp := [(1, 10), (2, 10)], pcs := [1] }

/-- A pc fleeing since turn 0 next to another pc and an npc, about to
resolve turn 5: the scenario of claim C2. -/
def w_c2 : World :=
  { base_world with
    turn := 4,
    combatants := [(1, [.flee]), (2, [.hold]), (3, [.hold])],
    fleeing_combatants := [(1, 0)],
    hp := [(1, 10), (2, 10), (3, 10)], pcs := [1, 2] }

/-- A pc attacking an npc at 1 hp: the victory scenario of claim C3. -/
def w_c3 : World :=
  { base_world with
    combatants := [(1, [.attack 2]), (2, [.hold])],
    hp := [(1, 10), (2, 1)], pcs := [1] }

/-- An environment whose weapon attack sets the hp of the target to -5. -/
def env_c3 : Env :=
  { id_env with weapon_use := fun _ _ target _ hp => dset hp target (-5) }

/-- A two-combatant free-for-all arena: the scenario of claim C4. -/
def w_c4 : World :=
  { base_world with
    combatants := [(1, []), (2, [])], hp := [(1, 10), (2, 10)], allow_pvp := true }

/-- A pc with a queued flee action, not yet fleeing, next to a second pc
and an npc: the scenario of claim C6. -/
def w_c6 : World :=
  { base_world with
    combatants := [(1, [.flee]), (2, [.hold]), (3, [.hold])],
    hp := [(1, 10), (2, 10), (3, 10)], pcs := [1, 2] }

/-- Frame facts of a single action step by combatant x during the action
loop: registered keys are unchanged, every other combatant keeps its queue
and its fleeing entry, and the turn counter, the flee timeout and the
defeated list are untouched; uniqueness of fleeing keys is preserved. -/
def StepFrame (w w' : World) (x : Nat) : Prop :=
  dkeys w'.combatants = dkeys w.combatants ∧
  (∀ c, c ≠ x → dget? w'.combatants c = dget? w.combatants c) ∧
  (∀ c, c ≠ x → dget? w'.fleeing_combatants c = dget? w.fleeing_combatants c) ∧
  w'.turn = w.turn ∧
  w'.flee_timeout = w.flee_timeout ∧
  w'.defeated_combatants = w.defeated_combatants ∧
  ((dkeys w.fleeing_combatants).Nodup → (dkeys w'.fleeing_combatants).Nodup)

section DictLemmas

variable {α β : Type} [DecidableEq α]

theorem dget?_dset_self (l : List (α × β)) (k : α) (v : β) :
    dget? (dset l k v) k = some v := by
  induction l with
  | nil => simp [dset, dget?]
  | cons p ps ih =>
    by_cases h : p.1 = k
    · simp [dset, h, dget?]
    · simp [dset, h, dget?, ih]

theorem dkeys_nil : dkeys ([] : List (α × β)) = [] := rfl

theorem dkeys_cons (p : α × β) (ps : List (α × β)) :
    dkeys (p :: ps) = p.1 :: dkeys ps := rfl

theorem dget?_dset_ne (l : List (α × β)) (k k' : α) (v : β) (h : k' ≠ k) :
    dget? (dset l k v) k' = dget? l k' := by
  induction l with
  | nil =>
    simp only [dset, dget?]
    rw [if_neg (fun he => h he.symm)]
  | cons p ps ih =>
    by_cases hp : p.1 = k
    · simp only [dset]
      rw [if_pos hp]
      simp only [dget?]
      rw [if_neg (fun he => h he.symm), if_neg (by rw [hp]; exact fun he => h he.symm)]
    · simp only [dset]
      rw [if_neg hp]
      by_cases h2 : p.1 = k'
      · simp only [dget?]
        rw [if_pos h2, if_pos h2]
      · simp only [dget?]
        rw [if_neg h2, if_neg h2, ih]

theorem dget?_dpop_ne (l : List (α × β)) (k k' : α) (h : k' ≠ k) :
    dget? (dpop l k) k' = dget? l k' := by
  induction l with
  | nil => rfl
  | cons p ps ih =>
    by_cases hp : p.1 = k
    · simp only [dpop]
      rw [if_pos hp]
      simp only [dget?]
      rw [if_neg (by rw [hp]; exact fun he => h he.symm)]
    · simp only [dpop]
      rw [if_neg hp]
      by_cases h2 : p.1 = k'
      · simp only [dget?]
        rw [if_pos h2, if_pos h2]
      · simp only [dget?]
        rw [if_neg h2, if_neg h2, ih]

theorem dget?_eq_none_of_not_mem (l : List (α × β)) (k : α) (h : k ∉ dkeys l) :
    dget? l k = none := by
  induction l with
  | nil => rfl
  | cons p ps ih =>
    rw [dkeys_cons, List.mem_cons, not_or] at h
    simp only [dget?]
    rw [if_neg (fun he => h.1 he.symm)]
    exact ih h.2

theorem mem_dkeys_of_dget?_eq_some (l : List (α × β)) (k : α) (v : β)
    (h : dget? l k = some v) : k ∈ dkeys l := by
  by_contra hmem
  rw [dget?_eq_none_of_not_mem l k hmem] at h
  exact Option.noConfusion h

theorem dget?_isSome_of_mem (l : List (α × β)) (k : α) (h : k ∈ dkeys l) :
    (dget? l k).isSome := by
  induction l with
  | nil =>
    rw [dkeys_nil] at h
    exact absurd h (List.not_mem_nil k)
  | cons p ps ih =>
    by_cases hp : p.1 = k
    · simp only [dget?]
      rw [if_pos hp]
      rfl
    · rw [dkeys_cons, List.mem_cons] at h
      rcases h with h | h
      · exact absurd h.symm hp
      · simp only [dget?]
        rw [if_neg hp]
        exact ih h

theorem dpop_of_not_mem (l : List (α × β)) (k : α) (h : k ∉ dkeys l) :
    dpop l k = l := by
  induction l with
  | nil => rfl
  | cons p ps ih =>
    rw [dkeys_cons, List.mem_cons, not_or] at h
    simp only [dpop]
    rw [if_neg (fun he => h.1 he.symm), ih h.2]

theorem dpop_sublist (l : List (α × β)) (k : α) : (dpop l k).Sublist l := by
  induction l with
  | nil => exact List.Sublist.refl []
  | cons p ps ih =>
    by_cases hp : p.1 = k
    · simp only [dpop]
      rw [if_pos hp]
      exact List.sublist_cons_self p ps
    · simp only [dpop]
      rw [if_neg hp]
      exact ih.cons₂ p

theorem dkeys_dpop_sublist (l : List (α × β)) (k : α) :
    (dkeys (dpop l k)).Sublist (dkeys l) :=
  (dpop_sublist l k).map Prod.fst

theorem dkeys_dset_of_mem (l : List (α × β)) (k : α) (v : β) (h : k ∈ dkeys l) :
    dkeys (dset l k v) = dkeys l := by
  induction l with
  | nil =>
    rw [dkeys_nil] at h
    exact absurd h (List.not_mem_nil k)
  | cons p ps ih =>
    by_cases hp : p.1 = k
    · simp only [dset]
      rw [if_pos hp, dkeys_cons, dkeys_cons, hp]
    · rw [dkeys_cons, List.mem_cons] at h
      rcases h with h | h
      · exact absurd h.symm hp
      · simp only [dset]
        rw [if_neg hp, dkeys_cons, dkeys_cons, ih h]

theorem dget?_of_mem_nodup (l : List (α × β)) (x : α) (s : β)
    (hnd : (dkeys l).Nodup) (h : (x, s) ∈ l) : dget? l x = some s := by
  induction l with
  | nil => exact absurd h (List.not_mem_nil _)
  | cons p ps ih =>
    rw [dkeys_cons, List.nodup_cons] at hnd
    rcases List.mem_cons.mp h with h | h
    · rw [← h]
      simp [dget?]
    · have hx : x ∈ dkeys ps := List.mem_map_of_mem Prod.fst h
      have hpx : p.1 ≠ x := fun he => hnd.1 (by rw [he]; exact hx)
      simp only [dget?]
      rw [if_neg hpx]
      exact ih hnd.2 h

theorem dget?_dpop_self_of_nodup (l : List (α × β)) (k : α)
    (hnd : (dkeys l).Nodup) : dget? (dpop l k) k = none := by
  induction l with
  | nil => rfl
  | cons p ps ih =>
    rw [dkeys_cons, List.nodup_cons] at hnd
    by_cases hp : p.1 = k
    · simp only [dpop]
      rw [if_pos hp]
      exact dget?_eq_none_of_not_mem ps k (fun hm => hnd.1 (by rw [hp]; exact hm))
    · simp only [dpop]
      rw [if_neg hp]
      simp only [dget?]
      rw [if_neg hp]
      exact ih hnd.2

theorem dkeys_dset_of_not_mem (l : List (α × β)) (k : α) (v : β) (h : k ∉ dkeys l) :
    dkeys (dset l k v) = dkeys l ++ [k] := by
  induction l with
  | nil => rfl
  | cons p ps ih =>
    rw [dkeys_cons, List.mem_cons, not_or] at h
    simp only [dset]
    rw [if_neg (fun he => h.1 he.symm), dkeys_cons, dkeys_cons, ih h.2]
    rfl

theorem nodup_dkeys_dset (l : List (α × β)) (k : α) (v : β)
    (h : (dkeys l).Nodup) : (dkeys (dset l k v)).Nodup := by
  by_cases hm : k ∈ dkeys l
  · rw [dkeys_dset_of_mem l k v hm]
    exact h
  · rw [dkeys_dset_of_not_mem l k v hm]
    refine List.Nodup.append h (List.nodup_singleton k) ?_
    intro a ha hb
    rw [List.mem_singleton] at hb
    exact hm (hb ▸ ha)

theorem dget?_dpop_none (l : List (α × β)) (k y : α) (h : dget? l k = none) :
    dget? (dpop l y) k = none := by
  induction l with
  | nil => rfl
  | cons p ps ih =>
    simp only [dget?] at h
    by_cases hp : p.1 = k
    · rw [if_pos hp] at h
      exact Option.noConfusion h
    · rw [if_neg hp] at h
      by_cases hy : p.1 = y
      · simp only [dpop]
        rw [if_pos hy]
        exact h
      · simp only [dpop]
        rw [if_neg hy]
        simp only [dget?]
        rw [if_neg hp]
        exact ih h

end DictLemmas

theorem stepFrame_refl (w : World) (x : Nat) : StepFrame w w x :=
  ⟨rfl, fun _ _ => rfl, fun _ _ => rfl, rfl, rfl, rfl, fun h => h⟩

theorem stepFrame_trans {w1 w2 w3 : World} {x : Nat}
    (h1 : StepFrame w1 w2 x) (h2 : StepFrame w2 w3 x) : StepFrame w1 w3 x := by
  obtain ⟨a1, b1, c1, d1, e1, f1, g1⟩ := h1
  obtain ⟨a2, b2, c2, d2, e2, f2, g2⟩ := h2
  exact ⟨a2.trans a1, fun c hc => (b2 c hc).trans (b1 c hc),
    fun c hc => (c2 c hc).trans (c1 c hc), d2.trans d1, e2.trans e1, f2.trans f1,
    fun h => g2 (g1 h)⟩

theorem queue_action_ok (w : World) (x : Nat) (a : ActionDict) (q : List ActionDict)
    (hq : dget? w.combatants x = some q) :
    ∃ w', queue_action w x a = .ok w' ∧ StepFrame w w' x ∧
      dget? w'.combatants x = some (deque_append max_action_queue_size q a) ∧
      w'.fleeing_combatants = w.fleeing_combatants := by
  have hmem : x ∈ dkeys w.combatants := mem_dkeys_of_dget?_eq_some _ _ _ hq
  simp only [queue_action, hq]
  split
  · exact ⟨_, rfl,
      ⟨dkeys_dset_of_mem _ _ _ hmem, fun c hc => dget?_dset_ne _ _ _ _ hc,
        fun _ _ => rfl, rfl, rfl, rfl, fun h => h⟩,
      dget?_dset_self _ _ _, rfl⟩
  · exact ⟨_, rfl,
      ⟨dkeys_dset_of_mem _ _ _ hmem, fun c hc => dget?_dset_ne _ _ _ _ hc,
        fun _ _ => rfl, rfl, rfl, rfl, fun h => h⟩,
      dget?_dset_self _ _ _, rfl⟩

theorem stepFrame_of_eq {w w' : World} (x : Nat)
    (hc : w'.combatants = w.combatants) (hf : w'.fleeing_combatants = w.fleeing_combatants)
    (ht : w'.turn = w.turn) (hft : w'.flee_timeout = w.flee_timeout)
    (hd : w'.defeated_combatants = w.defeated_combatants) : StepFrame w w' x :=
  ⟨by rw [hc], fun c _ => by rw [hc], fun c _ => by rw [hf], ht, hft, hd,
    fun h => by rw [hf]; exact h⟩

theorem except_bind_ok {ε α β : Type} (a : α) (f : α → Except ε β) :
    ((Except.ok a : Except ε α) >>= f) = f a := rfl

theorem action_post_execute_ne_flee (w : World) (c : Nat) (a : ActionDict)
    (h : a ≠ .flee) :
    action_post_execute w c a =
      { w with fleeing_combatants := dpop w.fleeing_combatants c } := by
  cases a with
  | flee => exact absurd rfl h
  | hold => rfl
  | attack target => rfl
  | stunt recipient target advantage st dt => rfl
  | use item target => rfl
  | wield item => rfl

theorem exec_queue_hold_case (w0 W : World) (x : Nat) (q0 : List ActionDict) (a : ActionDict)
    (hq : dget? w0.combatants x = some q0)
    (hW : W.combatants = w0.combatants)
    (hWf : W.fleeing_combatants = w0.fleeing_combatants)
    (hWt : W.turn = w0.turn) (hWft : W.flee_timeout = w0.flee_timeout)
    (hWd : W.defeated_combatants = w0.defeated_combatants)
    (hna : a ≠ .flee) :
    ∃ w', queue_action W x ActionDict.hold = .ok w' ∧ StepFrame w0 w' x ∧
      (a ≠ .flee → w'.fleeing_combatants = w0.fleeing_combatants) ∧
      (a = .flee →
        dget? w'.fleeing_combatants x =
          some ((dget? w0.fleeing_combatants x).getD w0.turn) ∧
        w'.combatants = w0.combatants) := by
  obtain ⟨w', hqa, hfr, hself, hflq⟩ :=
    queue_action_ok W x .hold q0 (by rw [hW]; exact hq)
  exact ⟨w', hqa, stepFrame_trans (stepFrame_of_eq x hW hWf hWt hWft hWd) hfr,
    fun _ => by rw [hflq, hWf], fun h => absurd h hna⟩

theorem action_execute_frame (env : Env) (w : World) (x : Nat) (a : ActionDict)
    (hx : x ∈ dkeys w.combatants) :
    ∃ w', action_execute env w x a = .ok w' ∧ StepFrame w w' x ∧
      (a ≠ .flee → w'.fleeing_combatants = w.fleeing_combatants) ∧
      (a = .flee →
        dget? w'.fleeing_combatants x =
          some ((dget? w.fleeing_combatants x).getD w.turn) ∧
        w'.combatants = w.combatants) := by
  obtain ⟨q0, hq0⟩ := Option.isSome_iff_exists.mp (dget?_isSome_of_mem w.combatants x hx)
  cases a with
  | hold =>
    exact ⟨w, rfl, stepFrame_refl w x, fun _ => rfl, fun h => nomatch h⟩
  | attack target =>
    simp only [action_execute]
    split
    · exact ⟨_, rfl, stepFrame_of_eq x rfl rfl rfl rfl rfl, fun _ => rfl, fun h => nomatch h⟩
    · exact ⟨w, rfl, stepFrame_refl w x, fun _ => rfl, fun h => nomatch h⟩
  | stunt recipient target advantage st dt =>
    simp only [action_execute]
    split
    · by_cases hadv : advantage = true
      · simp only [hadv, if_true]
        exact exec_queue_hold_case w _ x q0 _ hq0 rfl rfl rfl rfl rfl (fun h => nomatch h)
      · simp only [Bool.not_eq_true] at hadv
        simp only [hadv, Bool.false_eq_true, if_false]
        exact exec_queue_hold_case w _ x q0 _ hq0 rfl rfl rfl rfl rfl (fun h => nomatch h)
    · exact ⟨_, rfl, stepFrame_of_eq x rfl rfl rfl rfl rfl, fun _ => rfl, fun h => nomatch h⟩
  | use item target =>
    simp only [action_execute]
    split
    · exact exec_queue_hold_case w _ x q0 _ hq0 rfl rfl rfl rfl rfl (fun h => nomatch h)
    · exact exec_queue_hold_case w _ x q0 _ hq0 rfl rfl rfl rfl rfl (fun h => nomatch h)
  | wield item =>
    simp only [action_execute]
    exact exec_queue_hold_case w _ x q0 _ hq0 rfl rfl rfl rfl rfl (fun h => nomatch h)
  | flee =>
    simp only [action_execute]
    by_cases hfs : (dget? w.fleeing_combatants x).isSome = true
    · rw [if_pos hfs]
      obtain ⟨v, hv⟩ := Option.isSome_iff_exists.mp hfs
      refine ⟨w, rfl, stepFrame_refl w x, fun hne => absurd rfl hne, fun _ => ⟨?_, rfl⟩⟩
      rw [hv]
      rfl
    · rw [if_neg hfs]
      have hnone : dget? w.fleeing_combatants x = none := by
        cases hod : dget? w.fleeing_combatants x with
        | none => rfl
        | some v => rw [hod] at hfs; exact absurd rfl hfs
      refine ⟨_, rfl,
        ⟨rfl, fun _ _ => rfl, fun c hc => dget?_dset_ne _ _ _ _ hc, rfl, rfl, rfl,
          fun h => nodup_dkeys_dset _ _ _ h⟩,
        fun hne => absurd rfl hne, fun _ => ⟨?_, rfl⟩⟩
      rw [hnone, dget?_dset_self]
      rfl

theorem execute_next_action_spec (env : Env) (w : World) (x : Nat)
    (hx : x ∈ dkeys w.combatants) :
    ∃ w' a, execute_next_action env w x = .ok (w', a) ∧ StepFrame w w' x ∧
      (dget? w.combatants x = some [ActionDict.flee] →
        dget? w'.combatants x = some [ActionDict.flee] ∧
        dget? w'.fleeing_combatants x =
          some ((dget? w.fleeing_combatants x).getD w.turn)) ∧
      (∀ d, dget? w.combatants x = some [d] → d ≠ ActionDict.flee →
        (dkeys w.fleeing_combatants).Nodup → dget? w'.fleeing_combatants x = none) := by
  obtain ⟨q, hq⟩ := Option.isSome_iff_exists.mp (dget?_isSome_of_mem w.combatants x hx)
  have hget : get_next_action_dict w x true =
      .ok (q.headD fallback_action_dict,
        { w with combatants := dset w.combatants x (rotate_left q) }) := by
    simp [get_next_action_dict, hq]
  have hframe1 : StepFrame w { w with combatants := dset w.combatants x (rotate_left q) } x :=
    ⟨dkeys_dset_of_mem _ _ _ hx, fun c hc => dget?_dset_ne _ _ _ _ hc,
      fun _ _ => rfl, rfl, rfl, rfl, fun h => h⟩
  have hx1 : x ∈ dkeys ({ w with combatants := dset w.combatants x (rotate_left q) } : World).combatants := by
    rw [hframe1.1]
    exact hx
  obtain ⟨w2, hexec, hfr2, hnf, hfl⟩ :=
    action_execute_frame env { w with combatants := dset w.combatants x (rotate_left q) } x
      (q.headD fallback_action_dict) hx1
  by_cases haf : q.headD fallback_action_dict = ActionDict.flee
  · refine ⟨w2, q.headD fallback_action_dict, ?_, stepFrame_trans hframe1 hfr2, ?_, ?_⟩
    · have hall : execute_next_action env w x =
          .ok (action_post_execute w2 x (q.headD fallback_action_dict),
            q.headD fallback_action_dict) := by
        simp only [execute_next_action, hget, except_bind_ok, hexec]
      rw [hall, haf]
      rfl
    · intro hqf
      have hqe : q = [ActionDict.flee] := by
        rw [hq] at hqf
        exact Option.some.inj hqf
      obtain ⟨hflA, hflB⟩ := hfl haf
      constructor
      · rw [hflB]
        show dget? (dset w.combatants x (rotate_left q)) x = some [ActionDict.flee]
        rw [dget?_dset_self, hqe]
        rfl
      · exact hflA
    · intro d hdq hdne _
      have hqe : q = [d] := by
        rw [hq] at hdq
        exact Option.some.inj hdq
      rw [hqe] at haf
      exact absurd haf hdne
  · refine ⟨{ w2 with fleeing_combatants := dpop w2.fleeing_combatants x },
      q.headD fallback_action_dict, ?_, ?_, ?_, ?_⟩
    · have hall : execute_next_action env w x =
          .ok (action_post_execute w2 x (q.headD fallback_action_dict),
            q.headD fallback_action_dict) := by
        simp only [execute_next_action, hget, except_bind_ok, hexec]
      rw [hall, action_post_execute_ne_flee w2 x _ haf]
    · refine stepFrame_trans (stepFrame_trans hframe1 hfr2) ?_
      exact ⟨rfl, fun _ _ => rfl, fun c hc => dget?_dpop_ne _ _ _ hc, rfl, rfl, rfl,
        fun h => h.sublist (dkeys_dpop_sublist _ _)⟩
    · intro hqf
      have hqe : q = [ActionDict.flee] := by
        rw [hq] at hqf
        exact Option.some.inj hqf
      rw [hqe] at haf
      exact absurd rfl haf
    · intro d hdq hdne hnodup
      have hw2f : w2.fleeing_combatants = w.fleeing_combatants := hnf haf
      show dget? (dpop w2.fleeing_combatants x) x = none
      rw [hw2f]
      exact dget?_dpop_self_of_nodup _ _ hnodup

theorem run_actions_spec (env : Env) (order : List Nat) (w : World)
    (h : ∀ x ∈ order, x ∈ dkeys w.combatants) :
    ∃ w' tr, run_actions env order w = .ok (w', tr) ∧
      List.map Prod.fst tr = order ∧
      dkeys w'.combatants = dkeys w.combatants ∧
      w'.turn = w.turn ∧ w'.flee_timeout = w.flee_timeout ∧
      w'.defeated_combatants = w.defeated_combatants ∧
      ((dkeys w.fleeing_combatants).Nodup → (dkeys w'.fleeing_combatants).Nodup) := by
  induction order generalizing w with
  | nil => exact ⟨w, [], rfl, rfl, rfl, rfl, rfl, rfl, fun hh => hh⟩
  | cons x rest ih =>
    obtain ⟨w2, a, hexec, hframe, _, _⟩ :=
      execute_next_action_spec env w x (h x (List.mem_cons_self x rest))
    obtain ⟨hk, _, _, ht, hft, hd, hn⟩ := hframe
    obtain ⟨w3, tr, hrun, htr, hkeys, hturn, hft3, hdef, hnd⟩ :=
      ih w2 (fun y hy => by rw [hk]; exact h y (List.mem_cons_of_mem x hy))
    refine ⟨w3, (x, a) :: tr, ?_, ?_, ?_, ?_, ?_, ?_, ?_⟩
    · simp only [run_actions, hexec, except_bind_ok, hrun]
    · simp [htr]
    · rw [hkeys, hk]
    · rw [hturn, ht]
    · rw [hft3, hft]
    · rw [hdef, hd]
    · exact fun hh => hnd (hn hh)

/-- Claim C10: during a single resolution pass every combatant in the
shuffled order of the initially registered combatants executes its queued
action exactly in that order, whatever the environment does to hp
mid-pass (so even a combatant already at hp at most 0), and the
registered set is unchanged by the whole action loop: removal can only
happen in the sweeps that run after all actions have executed. -/
theorem c10_all_act_before_removal (env : Env) (w : World)
    (hshuffle : (env.shuffle (w.turn + 1) (members w)).Perm (members w)) :
    ∃ w' tr, turn_after_actions env w = .ok (w', tr) ∧
      List.map Prod.fst tr = env.shuffle (w.turn + 1) (members w) ∧
      (∀ x ∈ members w, x ∈ List.map Prod.fst tr) ∧
      members w' = members w := by
  obtain ⟨w', tr, hrun, htr, hkeys, _, _, _, _⟩ :=
    run_actions_spec env (env.shuffle (w.turn + 1) (members w))
      { w with turn := w.turn + 1 }
      (fun x hx => hshuffle.mem_iff.mp hx)
  refine ⟨w', tr, ?_, htr, ?_, hkeys⟩
  · exact hrun
  · intro x hx
    rw [htr]
    exact hshuffle.mem_iff.mpr hx

/-- Witness for C10: the attack scenario of w_c3 with the identity
shuffle; npc 2 is brought to hp -5 by pc 1 and still executes. -/
theorem c10_all_act_before_removal_witness :
    ∃ w' tr, turn_after_actions env_c3 w_c3 = .ok (w', tr) ∧
      List.map Prod.fst tr = env_c3.shuffle (w_c3.turn + 1) (members w_c3) ∧
      (∀ x ∈ members w_c3, x ∈ List.map Prod.fst tr) ∧
      members w' = members w_c3 :=
  c10_all_act_before_removal env_c3 w_c3 (List.Perm.refl (members w_c3))

theorem dget?_some_mem {α β : Type} [DecidableEq α] (l : List (α × β)) (k : α) (v : β)
    (h : dget? l k = some v) : (k, v) ∈ l := by
  induction l with
  | nil => exact Option.noConfusion h
  | cons p ps ih =>
    simp only [dget?] at h
    by_cases hp : p.1 = k
    · rw [if_pos hp] at h
      have : p = (k, v) := by
        cases p
        cases hp
        cases Option.some.inj h
        rfl
      rw [this]
      exact List.mem_cons_self _ _
    · rw [if_neg hp] at h
      exact List.mem_cons_of_mem p (ih h)

theorem run_actions_other_track (env : Env) (order : List Nat) (w : World) (c : Nat)
    (h : ∀ x ∈ order, x ∈ dkeys w.combatants)
    (hc : c ∉ order) :
    ∃ w' tr, run_actions env order w = .ok (w', tr) ∧
      dkeys w'.combatants = dkeys w.combatants ∧
      w'.turn = w.turn ∧ w'.flee_timeout = w.flee_timeout ∧
      w'.defeated_combatants = w.defeated_combatants ∧
      ((dkeys w.fleeing_combatants).Nodup → (dkeys w'.fleeing_combatants).Nodup) ∧
      dget? w'.combatants c = dget? w.combatants c ∧
      dget? w'.fleeing_combatants c = dget? w.fleeing_combatants c := by
  induction order generalizing w with
  | nil => exact ⟨w, [], rfl, rfl, rfl, rfl, rfl, fun hh => hh, rfl, rfl⟩
  | cons x rest ih =>
    rw [List.mem_cons, not_or] at hc
    obtain ⟨w2, a, hexec, hframe, _, _⟩ :=
      execute_next_action_spec env w x (h x (List.mem_cons_self x rest))
    obtain ⟨hk, hgc, hgf, ht, hft, hd, hn⟩ := hframe
    obtain ⟨w3, tr, hrun, hkeys, hturn, hft3, hdef, hnd, hqc, hfc⟩ :=
      ih w2 (fun y hy => by rw [hk]; exact h y (List.mem_cons_of_mem x hy)) hc.2
    refine ⟨w3, (x, a) :: tr, ?_, ?_, ?_, ?_, ?_, ?_, ?_, ?_⟩
    · simp only [run_actions, hexec, except_bind_ok, hrun]
    · rw [hkeys, hk]
    · rw [hturn, ht]
    · rw [hft3, hft]
    · rw [hdef, hd]
    · exact fun hh => hnd (hn hh)
    · rw [hqc, hgc c hc.1]
    · rw [hfc, hgf c hc.1]

theorem run_actions_single_track (env : Env) (order : List Nat) (w : World) (c : Nat)
    (d : ActionDict)
    (h : ∀ x ∈ order, x ∈ dkeys w.combatants)
    (hord : order.Nodup)
    (hq : dget? w.combatants c = some [d])
    (hnodupF : (dkeys w.fleeing_combatants).Nodup) :
    ∃ w' tr, run_actions env order w = .ok (w', tr) ∧
      dkeys w'.combatants = dkeys w.combatants ∧
      w'.turn = w.turn ∧ w'.flee_timeout = w.flee_timeout ∧
      w'.defeated_combatants = w.defeated_combatants ∧
      (dkeys w'.fleeing_combatants).Nodup ∧
      ((d = ActionDict.flee ∨ c ∉ order) → dget? w'.combatants c = some [d]) ∧
      (c ∉ order → dget? w'.fleeing_combatants c = dget? w.fleeing_combatants c) ∧
      (c ∈ order → d = ActionDict.flee →
        dget? w'.fleeing_combatants c =
          some ((dget? w.fleeing_combatants c).getD w.turn)) ∧
      (c ∈ order → d ≠ ActionDict.flee → dget? w'.fleeing_combatants c = none) := by
  induction order generalizing w with
  | nil =>
    exact ⟨w, [], rfl, rfl, rfl, rfl, rfl, hnodupF, fun _ => hq, fun _ => rfl,
      fun hcm => absurd hcm (List.not_mem_nil c), fun hcm => absurd hcm (List.not_mem_nil c)⟩
  | cons x rest ih =>
    rw [List.nodup_cons] at hord
    by_cases hxc : x = c
    · subst hxc
      obtain ⟨w2, a, hexec, hframe, hfleecl, hnonfleecl⟩ :=
        execute_next_action_spec env w x (h x (List.mem_cons_self x rest))
      obtain ⟨hk, hgc, hgf, ht, hft, hd, hn⟩ := hframe
      obtain ⟨w3, tr, hrun, hkeys, hturn, hft3, hdef, hnd, hqc, hfc⟩ :=
        run_actions_other_track env rest w2 x
          (fun y hy => by rw [hk]; exact h y (List.mem_cons_of_mem x hy)) hord.1
      by_cases hdf : d = ActionDict.flee
      · subst hdf
        obtain ⟨hq2, hf2⟩ := hfleecl hq
        refine ⟨w3, (x, a) :: tr, ?_, ?_, ?_, ?_, ?_, ?_, ?_, ?_, ?_, ?_⟩
        · simp only [run_actions, hexec, except_bind_ok, hrun]
        · rw [hkeys, hk]
        · rw [hturn, ht]
        · rw [hft3, hft]
        · rw [hdef, hd]
        · exact hnd (hn hnodupF)
        · intro _
          rw [hqc, hq2]
        · intro hcm
          exact absurd (List.mem_cons_self x rest) hcm
        · intro _ _
          rw [hfc, hf2]
        · intro _ hne
          exact absurd rfl hne
      · have hf2 : dget? w2.fleeing_combatants x = none :=
          hnonfleecl d hq hdf hnodupF
        refine ⟨w3, (x, a) :: tr, ?_, ?_, ?_, ?_, ?_, ?_, ?_, ?_, ?_, ?_⟩
        · simp only [run_actions, hexec, except_bind_ok, hrun]
        · rw [hkeys, hk]
        · rw [hturn, ht]
        · rw [hft3, hft]
        · rw [hdef, hd]
        · exact hnd (hn hnodupF)
        · intro hor
          rcases hor with hor | hor
          · exact absurd hor hdf
          · exact absurd (List.mem_cons_self x rest) hor
        · intro hcm
          exact absurd (List.mem_cons_self x rest) hcm
        · intro _ hdfl
          exact absurd hdfl hdf
        · intro _ _
          rw [hfc, hf2]
    · obtain ⟨w2, a, hexec, hframe, _, _⟩ :=
        execute_next_action_spec env w x (h x (List.mem_cons_self x rest))
      obtain ⟨hk, hgc, hgf, ht, hft, hd, hn⟩ := hframe
      have hcx : c ≠ x := fun he => hxc he.symm
      obtain ⟨w3, tr, hrun, hkeys, hturn, hft3, hdef, hnd, hqcl, hfcl, hflcl, hnfcl⟩ :=
        ih w2 (fun y hy => by rw [hk]; exact h y (List.mem_cons_of_mem x hy)) hord.2
          (by rw [hgc c hcx]; exact hq) (hn hnodupF)
      refine ⟨w3, (x, a) :: tr, ?_, ?_, ?_, ?_, ?_, ?_, ?_, ?_, ?_, ?_⟩
      · simp only [run_actions, hexec, except_bind_ok, hrun]
      · rw [hkeys, hk]
      · rw [hturn, ht]
      · rw [hft3, hft]
      · rw [hdef, hd]
      · exact hnd
      · intro hor
        rcases hor with hor | hor
        · exact hqcl (Or.inl hor)
        · rw [List.mem_cons, not_or] at hor
          exact hqcl (Or.inr hor.2)
      · intro hcm
        rw [List.mem_cons, not_or] at hcm
        rw [hfcl hcm.2, hgf c hcx]
      · intro hcm hdfl
        rw [List.mem_cons] at hcm
        rcases hcm with hcm | hcm
        · exact absurd hcm.symm hxc
        · rw [hflcl hcm hdfl, hgf c hcx, ht]
      · intro hcm hdne
        rw [List.mem_cons] at hcm
        rcases hcm with hcm | hcm
        · exact absurd hcm.symm hxc
        · exact hnfcl hcm hdne

theorem defeat_sweep_spec (env : Env) (snapshot : List Nat) (w : World) (c : Nat)
    (hpos : 0 < hp_of w c)
    (hdefeat : ∀ x t, (0 : Int) < (dget? t c).getD 0 →
      (0 : Int) < (dget? (env.at_defeat x t) c).getD 0) :
    dget? (defeat_sweep env snapshot w).combatants c = dget? w.combatants c ∧
    (defeat_sweep env snapshot w).fleeing_combatants = w.fleeing_combatants ∧
    (defeat_sweep env snapshot w).turn = w.turn ∧
    (defeat_sweep env snapshot w).flee_timeout = w.flee_timeout ∧
    0 < hp_of (defeat_sweep env snapshot w) c ∧
    ((members w).Nodup → (members (defeat_sweep env snapshot w)).Nodup) ∧
    (c ∉ w.defeated_combatants → c ∉ (defeat_sweep env snapshot w).defeated_combatants) := by
  induction snapshot generalizing w with
  | nil => exact ⟨rfl, rfl, rfl, rfl, hpos, fun h => h, fun h => h⟩
  | cons y rest ih =>
    simp only [defeat_sweep]
    by_cases hhp : hp_of w y ≤ 0
    · have hyc : y ≠ c := by
        intro he
        rw [he] at hhp
        exact absurd hpos (not_lt.mpr hhp)
      rw [if_pos hhp]
      obtain ⟨s1, s2, s3, s4, s5, s6, s7⟩ :=
        ih { w with
              hp := env.at_defeat y w.hp,
              combatants := dpop w.combatants y,
              defeated_combatants := w.defeated_combatants ++ [y] }
          (hdefeat y w.hp hpos)
      refine ⟨?_, s2, s3, s4, s5, ?_, ?_⟩
      · exact s1.trans (dget?_dpop_ne w.combatants y c (fun he => hyc he.symm))
      · exact fun hnd => s6 (hnd.sublist (dkeys_dpop_sublist w.combatants y))
      · intro hcd
        refine s7 ?_
        intro hmem
        rcases List.mem_append.mp hmem with hm | hm
        · exact hcd hm
        · rw [List.mem_singleton] at hm
          exact hyc hm.symm
    · rw [if_neg hhp]
      exact ih w hpos

theorem flee_sweep_spec (snapshot : List (Nat × Nat)) (w : World) :
    (flee_sweep snapshot w).fleeing_combatants = w.fleeing_combatants ∧
    (flee_sweep snapshot w).turn = w.turn ∧
    (flee_sweep snapshot w).flee_timeout = w.flee_timeout ∧
    (flee_sweep snapshot w).defeated_combatants = w.defeated_combatants ∧
    ((members w).Nodup → (members (flee_sweep snapshot w)).Nodup) ∧
    (∀ x, dget? w.combatants x = none →
      dget? (flee_sweep snapshot w).combatants x = none) ∧
    (∀ x, (∀ s, (x, s) ∈ snapshot → ((w.turn : Int) - (s : Int) < (w.flee_timeout : Int))) →
      dget? (flee_sweep snapshot w).combatants x = dget? w.combatants x) ∧
    (∀ x s, (x, s) ∈ snapshot → ((w.flee_timeout : Int) ≤ (w.turn : Int) - (s : Int)) →
      (members w).Nodup → dget? (flee_sweep snapshot w).combatants x = none) := by
  induction snapshot generalizing w with
  | nil =>
    exact ⟨rfl, rfl, rfl, rfl, fun h => h, fun _ h => h, fun _ _ => rfl,
      fun x s hmem _ _ => absurd hmem (List.not_mem_nil _)⟩
  | cons e rest ih =>
    simp only [flee_sweep]
    by_cases hcond : (w.flee_timeout : Int) ≤ (w.turn : Int) - (e.2 : Int)
    · rw [if_pos hcond]
      obtain ⟨s1, s2, s3, s4, s5, s6, s7, s8⟩ := ih (remove_combatant w e.1)
      refine ⟨s1, s2, s3, s4, ?_, ?_, ?_, ?_⟩
      · exact fun hnd => s5 (hnd.sublist (dkeys_dpop_sublist w.combatants e.1))
      · exact fun x hx => s6 x (dget?_dpop_none w.combatants x e.1 hx)
      · intro x hall
        have hxe : x ≠ e.1 := by
          intro hxe
          have hlt := hall e.2 (by rw [hxe, Prod.mk.eta]; exact List.mem_cons_self e rest)
          exact absurd hcond (not_le.mpr hlt)
        rw [s7 x (fun s hs => hall s (List.mem_cons_of_mem e hs))]
        exact dget?_dpop_ne w.combatants e.1 x hxe
      · intro x s hmem hge hnd
        rcases List.mem_cons.mp hmem with hm | hm
        · have hx1 : x = e.1 := congrArg Prod.fst hm
          exact s6 x (by rw [hx1]; exact dget?_dpop_self_of_nodup w.combatants e.1 hnd)
        · exact s8 x s hm hge (hnd.sublist (dkeys_dpop_sublist w.combatants e.1))
    · rw [if_neg hcond]
      obtain ⟨s1, s2, s3, s4, s5, s6, s7, s8⟩ := ih w
      refine ⟨s1, s2, s3, s4, s5, s6, ?_, ?_⟩
      · exact fun x hall => s7 x (fun s hs => hall s (List.mem_cons_of_mem e hs))
      · intro x s hmem hge hnd
        rcases List.mem_cons.mp hmem with hm | hm
        · have hs2 : s = e.2 := congrArg Prod.snd hm
          rw [hs2] at hge
          exact absurd hge hcond
        · exact s8 x s hm hge hnd

theorem victory_check_ok (env : Env) (w : World) (h : enemies_remain env w = true) :
    victory_check env w = .ok w := by
  unfold enemies_remain at h
  rw [Bool.and_eq_true, decide_eq_true_eq, decide_eq_true_eq] at h
  unfold victory_check
  rw [if_neg h.1, if_neg h.2]

theorem run_turns_succ_unfold (env : Env) (n : Nat) (w : World) :
    run_turns env (n + 1) w =
      (execute_full_turn env w).bind (fun w1 => run_turns env n w1) := rfl

theorem run_turns_snoc (env : Env) (n : Nat) (w : World) :
    run_turns env (n + 1) w =
      (run_turns env n w).bind (fun w1 => execute_full_turn env w1) := by
  induction n generalizing w with
  | zero =>
    have hr : (run_turns env 0 w).bind (fun w1 => execute_full_turn env w1) =
        execute_full_turn env w := rfl
    rw [run_turns_succ_unfold, hr]
    cases hexec : execute_full_turn env w with
    | error e => rfl
    | ok w1 => rfl
  | succ n ih =>
    rw [run_turns_succ_unfold env (n + 1) w, run_turns_succ_unfold env n w]
    cases hexec : execute_full_turn env w with
    | error e => rfl
    | ok w1 =>
      show run_turns env (n + 1) w1 = (run_turns env n w1).bind _
      exact ih w1

theorem not_mem_dkeys_of_dget?_eq_none {α β : Type} [DecidableEq α]
    (l : List (α × β)) (k : α) (h : dget? l k = none) : k ∉ dkeys l := by
  intro hm
  have hs := dget?_isSome_of_mem l k hm
  rw [h] at hs
  exact Bool.noConfusion hs

theorem flee_turn_step (env : Env) (w : World) (c : Nat)
    (hshuffle : ∀ t l, (env.shuffle t l).Perm l)
    (hdefeat : ∀ x t, (0 : Int) < (dget? t c).getD 0 →
      (0 : Int) < (dget? (env.at_defeat x t) c).getD 0)
    (hmem : c ∈ members w)
    (hq : dget? w.combatants c = some [ActionDict.flee])
    (hnodupC : (members w).Nodup)
    (hnodupF : (dkeys w.fleeing_combatants).Nodup)
    (hdef : c ∉ w.defeated_combatants)
    (hgood : good_turn env c w = true) :
    ∃ w2, execute_full_turn env w = .ok w2 ∧
      w2.turn = w.turn + 1 ∧ w2.flee_timeout = w.flee_timeout ∧
      dget? w2.fleeing_combatants c =
        some ((dget? w.fleeing_combatants c).getD (w.turn + 1)) ∧
      (members w2).Nodup ∧ (dkeys w2.fleeing_combatants).Nodup ∧
      c ∉ w2.defeated_combatants ∧
      ((((w.turn + 1 : Nat) : Int) -
          (((dget? w.fleeing_combatants c).getD (w.turn + 1) : Nat) : Int) <
          ((w.flee_timeout : Nat) : Int)) →
        (c ∈ members w2 ∧ dget? w2.combatants c = some [ActionDict.flee])) ∧
      ((((w.flee_timeout : Nat) : Int) ≤
          ((w.turn + 1 : Nat) : Int) -
          (((dget? w.fleeing_combatants c).getD (w.turn + 1) : Nat) : Int)) →
        c ∉ members w2) := by
  have hordnd : (env.shuffle (w.turn + 1) (members w)).Nodup :=
    ((hshuffle (w.turn + 1) (members w)).nodup_iff).mpr hnodupC
  have hcord : c ∈ env.shuffle (w.turn + 1) (members w) :=
    (hshuffle (w.turn + 1) (members w)).mem_iff.mpr hmem
  obtain ⟨wm, tr, hrun, hkeys, hturn, hft, hdefm, hndF, hqcl, _, hflcl, _⟩ :=
    run_actions_single_track env (env.shuffle (w.turn + 1) (members w))
      { w with turn := w.turn + 1 } c ActionDict.flee
      (fun x hx => (hshuffle (w.turn + 1) (members w)).mem_iff.mp hx)
      hordnd hq hnodupF
  have hrunA : turn_after_actions env w = .ok (wm, tr) := hrun
  have hqm : dget? wm.combatants c = some [ActionDict.flee] := hqcl (Or.inl rfl)
  have hfm : dget? wm.fleeing_combatants c =
      some ((dget? w.fleeing_combatants c).getD (w.turn + 1)) := hflcl hcord rfl
  have hsweeps : turn_after_sweeps env w =
      .ok (flee_sweep (defeat_sweep env (members wm) wm).fleeing_combatants
        (defeat_sweep env (members wm) wm)) := by
    simp only [turn_after_sweeps, hrunA, except_bind_ok]
  have hgood2 := hgood
  unfold good_turn at hgood2
  rw [hrunA, hsweeps] at hgood2
  simp only [Bool.and_eq_true, decide_eq_true_eq] at hgood2
  obtain ⟨hposm, hene⟩ := hgood2
  obtain ⟨d1, d2, d3, d4, d5, d6, d7⟩ :=
    defeat_sweep_spec env (members wm) wm c hposm hdefeat
  obtain ⟨f1, f2, f3, f4, f5, f6, f7, f8⟩ :=
    flee_sweep_spec (defeat_sweep env (members wm) wm).fleeing_combatants
      (defeat_sweep env (members wm) wm)
  have hmndC : (members wm).Nodup := by
    show (dkeys wm.combatants).Nodup
    rw [hkeys]
    exact hnodupC
  have hmndF : (dkeys wm.fleeing_combatants).Nodup := hndF
  have hdndC : (members (defeat_sweep env (members wm) wm)).Nodup := d6 hmndC
  have hdndF : (dkeys (defeat_sweep env (members wm) wm).fleeing_combatants).Nodup := by
    rw [d2]
    exact hmndF
  have hqd : dget? (defeat_sweep env (members wm) wm).combatants c =
      some [ActionDict.flee] := d1.trans hqm
  have hfd : dget? (defeat_sweep env (members wm) wm).fleeing_combatants c =
      some ((dget? w.fleeing_combatants c).getD (w.turn + 1)) := by
    rw [d2]
    exact hfm
  have hdturn : (defeat_sweep env (members wm) wm).turn = w.turn + 1 := by
    rw [d3]
    exact hturn
  have hdft : (defeat_sweep env (members wm) wm).flee_timeout = w.flee_timeout := by
    rw [d4]
    exact hft
  have hddef : c ∉ (defeat_sweep env (members wm) wm).defeated_combatants := by
    refine d7 ?_
    rw [hdefm]
    exact hdef
  have hexec : execute_full_turn env w =
      .ok (flee_sweep (defeat_sweep env (members wm) wm).fleeing_combatants
        (defeat_sweep env (members wm) wm)) := by
    have hfin : execute_full_turn env w =
        victory_check env (flee_sweep (defeat_sweep env (members wm) wm).fleeing_combatants
          (defeat_sweep env (members wm) wm)) := by
      simp only [execute_full_turn, hsweeps, except_bind_ok]
    rw [hfin, victory_check_ok env _ hene]
  refine ⟨_, hexec, ?_, ?_, ?_, ?_, ?_, ?_, ?_, ?_⟩
  · rw [f2]
    exact hdturn
  · rw [f3]
    exact hdft
  · rw [f1]
    exact hfd
  · exact f5 hdndC
  · rw [f1]
    exact hdndF
  · rw [f4]
    exact hddef
  · intro hlt
    have hkeep : dget? (flee_sweep (defeat_sweep env (members wm) wm).fleeing_combatants
        (defeat_sweep env (members wm) wm)).combatants c =
        dget? (defeat_sweep env (members wm) wm).combatants c := by
      refine f7 c ?_
      intro s' hs'
      have hs'get := dget?_of_mem_nodup _ c s' hdndF hs'
      rw [hfd] at hs'get
      have hs'eq := Option.some.inj hs'get
      rw [← hs'eq, hdturn, hdft]
      exact hlt
    exact ⟨mem_dkeys_of_dget?_eq_some _ _ _ (hkeep.trans hqd), hkeep.trans hqd⟩
  · intro hge
    have hrem : dget? (flee_sweep (defeat_sweep env (members wm) wm).fleeing_combatants
        (defeat_sweep env (members wm) wm)).combatants c = none := by
      refine f8 c ((dget? w.fleeing_combatants c).getD (w.turn + 1))
        (dget?_some_mem _ _ _ hfd) ?_ hdndC
      rw [hdturn, hdft]
      exact hge
    exact not_mem_dkeys_of_dget?_eq_none _ _ hrem

theorem reset_turn_step (env : Env) (w : World) (c : Nat) (d : ActionDict)
    (hshuffle : ∀ t l, (env.shuffle t l).Perm l)
    (hdefeat : ∀ x t, (0 : Int) < (dget? t c).getD 0 →
      (0 : Int) < (dget? (env.at_defeat x t) c).getD 0)
    (hmem : c ∈ members w)
    (hq : dget? w.combatants c = some [d])
    (hdne : d ≠ ActionDict.flee)
    (hnodupC : (members w).Nodup)
    (hnodupF : (dkeys w.fleeing_combatants).Nodup)
    (hgood : good_turn env c w = true) :
    ∃ w2, execute_full_turn env w = .ok w2 ∧
      dget? w2.fleeing_combatants c = none ∧ c ∈ members w2 := by
  have hordnd : (env.shuffle (w.turn + 1) (members w)).Nodup :=
    ((hshuffle (w.turn + 1) (members w)).nodup_iff).mpr hnodupC
  have hcord : c ∈ env.shuffle (w.turn + 1) (members w) :=
    (hshuffle (w.turn + 1) (members w)).mem_iff.mpr hmem
  obtain ⟨wm, tr, hrun, hkeys, hturn, hft, hdefm, hndF, hqcl, _, _, hnfcl⟩ :=
    run_actions_single_track env (env.shuffle (w.turn + 1) (members w))
      { w with turn := w.turn + 1 } c d
      (fun x hx => (hshuffle (w.turn + 1) (members w)).mem_iff.mp hx)
      hordnd hq hnodupF
  have hrunA : turn_after_actions env w = .ok (wm, tr) := hrun
  have hfm : dget? wm.fleeing_combatants c = none := hnfcl hcord hdne
  have hsweeps : turn_after_sweeps env w =
      .ok (flee_sweep (defeat_sweep env (members wm) wm).fleeing_combatants
        (defeat_sweep env (members wm) wm)) := by
    simp only [turn_after_sweeps, hrunA, except_bind_ok]
  have hgood2 := hgood
  unfold good_turn at hgood2
  rw [hrunA, hsweeps] at hgood2
  simp only [Bool.and_eq_true, decide_eq_true_eq] at hgood2
  obtain ⟨hposm, hene⟩ := hgood2
  obtain ⟨d1, d2, d3, d4, d5, d6, d7⟩ :=
    defeat_sweep_spec env (members wm) wm c hposm hdefeat
  obtain ⟨f1, f2, f3, f4, f5, f6, f7, f8⟩ :=
    flee_sweep_spec (defeat_sweep env (members wm) wm).fleeing_combatants
      (defeat_sweep env (members wm) wm)
  have hfd : dget? (defeat_sweep env (members wm) wm).fleeing_combatants c = none := by
    rw [d2]
    exact hfm
  have hmemm : c ∈ members wm := by
    show c ∈ dkeys wm.combatants
    rw [hkeys]
    exact hmem
  have hkeep : dget? (flee_sweep (defeat_sweep env (members wm) wm).fleeing_combatants
      (defeat_sweep env (members wm) wm)).combatants c =
      dget? (defeat_sweep env (members wm) wm).combatants c := by
    refine f7 c ?_
    intro s' hs'
    have hck : c ∈ dkeys (defeat_sweep env (members wm) wm).fleeing_combatants :=
      List.mem_map_of_mem Prod.fst hs'
    have hs2 := dget?_isSome_of_mem _ c hck
    rw [hfd] at hs2
    exact Bool.noConfusion hs2
  have hsome : (dget? (flee_sweep (defeat_sweep env (members wm) wm).fleeing_combatants
      (defeat_sweep env (members wm) wm)).combatants c).isSome := by
    rw [hkeep, d1]
    exact dget?_isSome_of_mem _ c hmemm
  have hexec : execute_full_turn env w =
      .ok (flee_sweep (defeat_sweep env (members wm) wm).fleeing_combatants
        (defeat_sweep env (members wm) wm)) := by
    have hfin : execute_full_turn env w =
        victory_check env (flee_sweep (defeat_sweep env (members wm) wm).fleeing_combatants
          (defeat_sweep env (members wm) wm)) := by
      simp only [execute_full_turn, hsweeps, except_bind_ok]
    rw [hfin, victory_check_ok env _ hene]
  refine ⟨_, hexec, ?_, ?_⟩
  · rw [f1]
    exact hfd
  · obtain ⟨q2, hq2⟩ := Option.isSome_iff_exists.mp hsome
    exact mem_dkeys_of_dget?_eq_some _ _ _ hq2

theorem flee_run_inv (env : Env) (w : World) (c : Nat)
    (hshuffle : ∀ t l, (env.shuffle t l).Perm l)
    (hdefeat : ∀ x t, (0 : Int) < (dget? t c).getD 0 →
      (0 : Int) < (dget? (env.at_defeat x t) c).getD 0)
    (hmem : c ∈ members w)
    (hq : dget? w.combatants c = some [ActionDict.flee])
    (hnf : dget? w.fleeing_combatants c = none)
    (hnodupC : (members w).Nodup)
    (hnodupF : (dkeys w.fleeing_combatants).Nodup)
    (hdef : c ∉ w.defeated_combatants)
    (hft : 1 ≤ w.flee_timeout)
    (hgood : ∀ k, k ≤ w.flee_timeout → good_step env c (run_turns env k w) = true) :
    ∀ k, 1 ≤ k → k ≤ w.flee_timeout →
      ∃ wk, run_turns env k w = .ok wk ∧
        c ∈ members wk ∧ dget? wk.combatants c = some [ActionDict.flee] ∧
        dget? wk.fleeing_combatants c = some (w.turn + 1) ∧
        wk.turn = w.turn + k ∧ wk.flee_timeout = w.flee_timeout ∧
        (members wk).Nodup ∧ (dkeys wk.fleeing_combatants).Nodup ∧
        c ∉ wk.defeated_combatants := by
  intro k
  induction k with
  | zero =>
    intro h1 _
    exact absurd h1 (by decide)
  | succ k ihk =>
    intro _ hk1
    by_cases hk0 : k = 0
    · subst hk0
      have hg0 : good_turn env c w = true := hgood 0 (Nat.zero_le _)
      obtain ⟨w2, hexec, hturn2, hft2, hfe, hndc2, hndf2, hdef2, hkeep, _⟩ :=
        flee_turn_step env w c hshuffle hdefeat hmem hq hnodupC hnodupF hdef hg0
      have hcond : ((w.turn + 1 : Nat) : Int) -
          (((dget? w.fleeing_combatants c).getD (w.turn + 1) : Nat) : Int) <
          ((w.flee_timeout : Nat) : Int) := by
        rw [hnf]
        show ((w.turn + 1 : Nat) : Int) - ((w.turn + 1 : Nat) : Int) <
          ((w.flee_timeout : Nat) : Int)
        omega
      obtain ⟨hmem2, hq2⟩ := hkeep hcond
      refine ⟨w2, ?_, hmem2, hq2, ?_, ?_, hft2, hndc2, hndf2, hdef2⟩
      · rw [run_turns_succ_unfold, hexec]
        rfl
      · rw [hfe, hnf]
        rfl
      · rw [hturn2]
    · have hk1' : 1 ≤ k := Nat.one_le_iff_ne_zero.mpr hk0
      have hkle : k ≤ w.flee_timeout := Nat.le_of_succ_le hk1
      obtain ⟨wk, hrunk, hmemk, hqk, hfek, hturnk, hftk, hndck, hndfk, hdefk⟩ :=
        ihk hk1' hkle
      have hgk : good_turn env c wk = true := by
        have hg := hgood k hkle
        rw [hrunk] at hg
        exact hg
      obtain ⟨w2, hexec, hturn2, hft2, hfe, hndc2, hndf2, hdef2, hkeep, _⟩ :=
        flee_turn_step env wk c hshuffle hdefeat hmemk hqk hndck hndfk hdefk hgk
      have hcond : ((wk.turn + 1 : Nat) : Int) -
          (((dget? wk.fleeing_combatants c).getD (wk.turn + 1) : Nat) : Int) <
          ((wk.flee_timeout : Nat) : Int) := by
        rw [hfek, hturnk, hftk]
        show ((w.turn + k + 1 : Nat) : Int) - ((w.turn + 1 : Nat) : Int) <
          ((w.flee_timeout : Nat) : Int)
        omega
      obtain ⟨hmem2, hq2⟩ := hkeep hcond
      refine ⟨w2, ?_, hmem2, hq2, ?_, ?_, ?_, hndc2, hndf2, hdef2⟩
      · rw [run_turns_snoc, hrunk]
        show execute_full_turn env wk = .ok w2
        exact hexec
      · rw [hfe, hfek]
        rfl
      · rw [hturn2, hturnk]
        omega
      · rw [hft2, hftk]

/-- Claim C6: a combatant c whose queued action is flee and who is not
yet fleeing, in combat whose action each turn repeats (capacity-1 rotate
queue, no other submission by c), with the shuffle a permutation, the
defeat hook unable to kill c, c surviving every action phase and combat
continuing (the good_step side conditions): c stays registered through
the resolutions of turns N to N+flee_timeout-1 with its flight start
recorded as turn N = w.turn + 1 (the first resolution where the flee
executes), and is removed exactly at the resolution of turn
N+flee_timeout, as escaped and not defeated. Moreover a non-flee action
resolving for c clears the flight entry, so a later flee counts from its
own turn (the first conjunct applied to the cleared state). -/
theorem c6_flight_timing (env : Env) (w : World) (c : Nat)
    (hshuffle : ∀ t l, (env.shuffle t l).Perm l)
    (hdefeat : ∀ x t, (0 : Int) < (dget? t c).getD 0 →
      (0 : Int) < (dget? (env.at_defeat x t) c).getD 0)
    (hmem : c ∈ members w)
    (hq : dget? w.combatants c = some [ActionDict.flee])
    (hnf : dget? w.fleeing_combatants c = none)
    (hnodupC : (members w).Nodup)
    (hnodupF : (dkeys w.fleeing_combatants).Nodup)
    (hdef : c ∉ w.defeated_combatants)
    (hft : 1 ≤ w.flee_timeout)
    (hgood : ∀ k, k ≤ w.flee_timeout → good_step env c (run_turns env k w) = true) :
    (∀ k, 1 ≤ k → k ≤ w.flee_timeout →
      ∃ wk, run_turns env k w = .ok wk ∧ c ∈ members wk ∧
        dget? wk.fleeing_combatants c = some (w.turn + 1)) ∧
    (∃ wf, run_turns env (w.flee_timeout + 1) w = .ok wf ∧
      c ∉ members wf ∧ c ∉ wf.defeated_combatants) ∧
    (∀ w1 d, dget? w1.combatants c = some [d] → d ≠ ActionDict.flee →
      c ∈ members w1 → (members w1).Nodup → (dkeys w1.fleeing_combatants).Nodup →
      good_turn env c w1 = true →
      ∃ w2, execute_full_turn env w1 = .ok w2 ∧
        dget? w2.fleeing_combatants c = none ∧ c ∈ members w2) := by
  have hinv := flee_run_inv env w c hshuffle hdefeat hmem hq hnf hnodupC hnodupF hdef
    hft hgood
  refine ⟨?_, ?_, ?_⟩
  · intro k h1 h2
    obtain ⟨wk, hr, hm, _, hf, _⟩ := hinv k h1 h2
    exact ⟨wk, hr, hm, hf⟩
  · obtain ⟨wk, hrunk, hmemk, hqk, hfek, hturnk, hftk, hndck, hndfk, hdefk⟩ :=
      hinv w.flee_timeout hft (le_refl _)
    have hgk : good_turn env c wk = true := by
      have hg := hgood w.flee_timeout (le_refl _)
      rw [hrunk] at hg
      exact hg
    obtain ⟨w2, hexec, _, _, _, _, _, hdef2, _, hrem⟩ :=
      flee_turn_step env wk c hshuffle hdefeat hmemk hqk hndck hndfk hdefk hgk
    have hcond : ((wk.flee_timeout : Nat) : Int) ≤ ((wk.turn + 1 : Nat) : Int) -
        (((dget? wk.fleeing_combatants c).getD (wk.turn + 1) : Nat) : Int) := by
      rw [hfek, hturnk, hftk]
      show ((w.flee_timeout : Nat) : Int) ≤
        ((w.turn + w.flee_timeout + 1 : Nat) : Int) - ((w.turn + 1 : Nat) : Int)
      omega
    refine ⟨w2, ?_, hrem hcond, hdef2⟩
    rw [run_turns_snoc, hrunk]
    show execute_full_turn env wk = .ok w2
    exact hexec
  · intro w1 d hq1 hdne hmem1 hnd1 hnf1 hg1
    exact reset_turn_step env w1 c d hshuffle hdefeat hmem1 hq1 hdne hnd1 hnf1 hg1

/-- Witness for C6 at the three-combatant scenario w_c6 with the identity
environment: combatant 1 flees starting at turn 1 and escapes exactly at
turn 6 = 1 + flee_timeout. -/
theorem c6_flight_timing_witness :
    (∀ k, 1 ≤ k → k ≤ w_c6.flee_timeout →
      ∃ wk, run_turns id_env k w_c6 = .ok wk ∧ 1 ∈ members wk ∧
        dget? wk.fleeing_combatants 1 = some (w_c6.turn + 1)) ∧
    (∃ wf, run_turns id_env (w_c6.flee_timeout + 1) w_c6 = .ok wf ∧
      1 ∉ members wf ∧ 1 ∉ wf.defeated_combatants) ∧
    (∀ w1 d, dget? w1.combatants 1 = some [d] → d ≠ ActionDict.flee →
      1 ∈ members w1 → (members w1).Nodup → (dkeys w1.fleeing_combatants).Nodup →
      good_turn id_env 1 w1 = true →
      ∃ w2, execute_full_turn id_env w1 = .ok w2 ∧
        dget? w2.fleeing_combatants 1 = none ∧ 1 ∈ members w2) :=
  c6_flight_timing id_env w_c6 1
    (fun _ l => List.Perm.refl l)
    (fun _ _ h => h)
    (by decide) (by decide) (by decide) (by decide) (by decide) (by decide) (by decide)
    (fun k hk =>
      (by decide : ∀ k2, 0 ≤ k2 → k2 ≤ w_c6.flee_timeout →
        good_step id_env 1 (run_turns id_env k2 w_c6) = true) k (Nat.zero_le k) hk)

/-- Claim C7: for every Stunt execution, the defender of the opposed check
is the target when recipient equals target, otherwise the target when the
stunt grants advantage, otherwise the recipient: the defender computed by
CombatActionStunt.execute coincides with the spec formula. -/
theorem c7_stunt_defender :
    ∀ recipient target : Nat, ∀ advantage : Bool,
      stunt_defender recipient target advantage =
        stunt_defender_spec recipient target advantage := by
  intro r t adv
  by_cases h : r = t
  · simp [stunt_defender, stunt_defender_spec, h]
  · simp [stunt_defender, stunt_defender_spec, h]

/-- Claim C8: for a pair (r, t) with t not in the Fleeing Set, after
give_advantage(r, t) the first has_advantage(r, t) returns true, and a
second call without a new grant returns false: the grant is consumed
exactly once, reading clears the entry. -/
theorem c8_ledger_one_shot (w : World) (r t : Nat)
    (hnodup : (dkeys w.advantage_matrix).Nodup)
    (hfleeing : is_fleeing w t = false) :
    (has_advantage (give_advantage w r t) r t).1 = true ∧
    (has_advantage (has_advantage (give_advantage w r t) r t).2 r t).1 = false := by
  constructor
  · simp [has_advantage, give_advantage, dget?_dset_self]
  · have hnd2 : (dkeys (dset w.advantage_matrix (r, t) true)).Nodup :=
      nodup_dkeys_dset _ _ _ hnodup
    simp only [has_advantage, give_advantage, is_fleeing] at hfleeing ⊢
    rw [dget?_dpop_self_of_nodup _ _ hnd2]
    simp [hfleeing]

/-- Witness for C8 at the empty ledger of the base world. -/
theorem c8_ledger_one_shot_witness :
    (has_advantage (give_advantage base_world 1 2) 1 2).1 = true ∧
    (has_advantage (has_advantage (give_advantage base_world 1 2) 1 2).2 1 2).1 = false :=
  c8_ledger_one_shot base_world 1 2 (by decide) (by decide)

/-- Claim C9: has_advantage(r, t) returns true whenever t is currently in
the Fleeing Set, regardless of ledger state, and has_disadvantage(r, t)
returns true whenever r is currently in the Fleeing Set. -/
theorem c9_fleeing_override (w w2 : World) (r t : Nat) :
    (is_fleeing w t = true → (has_advantage w r t).1 = true) ∧
    (is_fleeing w2 r = true → (has_disadvantage w2 r t).1 = true) := by
  constructor
  · intro h
    simp [has_advantage, h]
  · intro h
    simp [has_disadvantage, h]

/-- Witness for C9 at a state where combatant 1 is fleeing. -/
theorem c9_fleeing_override_witness :
    (has_advantage w_c2 1 1).1 = true ∧ (has_disadvantage w_c2 1 1).1 = true :=
  ⟨(c9_fleeing_override w_c2 w_c2 1 1).1 (by decide),
   (c9_fleeing_override w_c2 w_c2 1 1).2 (by decide)⟩

/-- Counterexample to claim C4 as stated: in a free-for-all arena with
combatants 1 and 2, get_sides of combatant 1 returns the allies list [1]
(the combatant itself), not an empty allies list. -/
theorem c4_free_for_all_counterexample :
    w_c4.allow_pvp = true ∧ 1 ∈ members w_c4 ∧ (get_sides w_c4 1).1 = [1] ∧
      (get_sides w_c4 1).1 ≠ [] := by decide

/-- Claim C4 (amended): when the free-for-all flag is set, get_sides(c)
returns every other registered combatant as an enemy, and an allies list
containing exactly c itself (rather than an empty list). -/
theorem c4_free_for_all_sides (w : World) (c : Nat) (_hc : c ∈ members w)
    (hpvp : w.allow_pvp = true) :
    (get_sides w c).1 = [c] ∧
      ∀ x, x ∈ (get_sides w c).2 ↔ (x ∈ members w ∧ x ≠ c) := by
  simp [get_sides, hpvp, List.mem_filter]

/-- Witness for the amended C4 at the two-combatant pvp arena. -/
theorem c4_free_for_all_sides_witness :
    (get_sides w_c4 1).1 = [1] ∧
      ∀ x, x ∈ (get_sides w_c4 1).2 ↔ (x ∈ members w_c4 ∧ x ≠ 1) :=
  c4_free_for_all_sides w_c4 1 (by decide) (by decide)

/-- Claim C5: queue_action and get_next_action_dict invoked with a
combatant not registered in the session raise the unregistered-combatant
error (the KeyError of the dict lookup), surfaced to the caller; only
remove_combatant on a non-member is a no-op. -/
theorem c5_unknown_combatant (w : World) (c : Nat) (a : ActionDict)
    (h : c ∉ members w) :
    queue_action w c a = .error .keyError ∧
    get_next_action_dict w c true = .error .keyError ∧
    remove_combatant w c = w := by
  have hget : dget? w.combatants c = none := dget?_eq_none_of_not_mem w.combatants c h
  refine ⟨?_, ?_, ?_⟩
  · simp [queue_action, hget]
  · simp [get_next_action_dict, hget]
  · unfold remove_combatant
    rw [dpop_of_not_mem w.combatants c h]

/-- Witness for C5: combatant 7 is not registered in the C1 world. -/
theorem c5_unknown_combatant_witness :
    queue_action w_c1 7 .hold = .error .keyError ∧
    get_next_action_dict w_c1 7 true = .error .keyError ∧
    remove_combatant w_c1 7 = w_c1 :=
  c5_unknown_combatant w_c1 7 .hold (by decide)

/-- Claim C1 is false of the code: with the two registered combatants of
the C1 world each calling queue_action once since the last resolution,
force_repeat is never invoked, because queue_action builds its submission
set from self.ndb.did_action but never writes the set back, so the set
seen by every call holds only the current submitter. The resulting state
differs from the initial one only in the two queues: the force_repeat
counter stays 0 and ndb.did_action stays unset. -/
theorem c1_early_resolution_code_eval :
    (queue_action w_c1 1 .hold).bind (fun w1 => queue_action w1 2 .hold) =
        .ok { w_c1 with combatants := [(1, [.hold]), (2, [.hold])] } ∧
      ({ w_c1 with combatants := [(1, [.hold]), (2, [.hold])] } : World).force_repeat_calls = 0 ∧
      ({ w_c1 with combatants := [(1, [.hold]), (2, [.hold])] } : World).ndb_did_action = none ∧
      members w_c1 = [1, 2] := by decide

/-- Claim C2 is false of the code: combatant 1 of the C2 world has been
fleeing since turn 0 and escapes at the resolution of turn 5 (the flight
sweep removes it from the registered combatants), yet its Fleeing Set
entry 1 to 0 survives the resolution pass, so the Fleeing Set refers to a
combatant that is no longer registered. -/
theorem c2_fleeing_entry_persists :
    (execute_full_turn id_env w_c2).map
        (fun w => (dget? w.fleeing_combatants 1, decide (1 ∈ members w))) =
      .ok (some 0, false) := by decide

/-- Claim C3 is false of the code: resolving the C3 turn defeats the npc
and leaves the pc as sole survivor with no enemies, and the teardown then
raises RuntimeError, because stop_combat removes combatants from the
combatant dict while iterating over that same dict; stop() is never
reached. With no survivors at all the teardown does complete and stop()
fires once, showing the error is specific to a non-empty surviving set. -/
theorem c3_stop_combat_raises :
    execute_full_turn env_c3 w_c3 = .error .runtimeError ∧
      stop_combat { w_c3 with combatants := [(1, [.hold])] } = .error .runtimeError ∧
      (stop_combat base_world).map World.stop_calls = .ok 1 := by decide

end Combat
